import Mathlib

/-!
Verification of the klops-server falling-block game engine.

The definitions below are a shallow embedding of the TypeScript sources:
  * `src/services/game/game.ts`  — the game engine (geometry, collision,
    moves, rotation, line clearing, scoring, lifecycle),
  * `src/services/game/blocks.ts` — the shuffle-bag block factory,
  * `src/index.ts`               — the websocket command router.

JavaScript numbers that hold coordinates are embedded as `Int` (they can go
negative); counters, matrix cells and dimensions are `Nat`.  Mutation of the
engine state is embedded as explicit state passing; `publish` calls are
embedded as an emitted event list.  `Math.random`-driven choices are
parameters (`js`, `jss`): every run of the JS program corresponds to some
value of those parameters.
-/

namespace Klops

/-- Planar vector, from `models/game.ts` (`Vector {x, y}`). -/
structure Vector where
  x : Int
  y : Int
deriving DecidableEq, Repr

/-- A falling piece, from `models/game.ts` (`Block {zero, vectors, degrees}`). -/
structure Block where
  zero : Vector
  vectors : List Vector
  degrees : Nat
deriving DecidableEq, Repr

/-- Occupancy grid, `type Matrix = number[][]`; `0` is `emptyField`. -/
abbrev Matrix := List (List Nat)

/-- Constant `emptyField = 0` from `game.ts`. -/
def emptyField : Nat := 0

/-- Function `toAbsVectors` from `game.ts`: absolute cells of a block
(`zero` plus each relative vector). -/
def toAbsVectors (block : Block) : List Vector :=
  block.vectors.map (fun v => ⟨block.zero.x + v.x, block.zero.y + v.y⟩)

/-- Reading `matrix[y][x]` (used by `isBlocked` only at indices that are in
range; out of range we default to an empty cell). -/
def matrixAt (matrix : Matrix) (y x : Int) : Nat :=
  (matrix.getD y.toNat []).getD x.toNat 0

/-- Collision test `isBlocked` from `game.ts`: fold over the absolute cells of the block,
accumulating the collision disjunction. -/
def isBlocked (matrix : Matrix) (block : Block) : Bool :=
  let lastRowIndex : Int := (matrix.length : Int) - 1
  let lastColIndex : Int := ((matrix.headD []).length : Int) - 1
  (toAbsVectors block).foldl
    (fun acc v =>
      acc ||
      v.x < 0 ||
      v.y > lastRowIndex ||
      v.x > lastColIndex ||
      (v.y ≥ 0 && matrixAt matrix v.y v.x ≠ emptyField))
    false

/-- Function `createMatrix` from `game.ts`: `rows` rows of `cols` empty cells. -/
def createMatrix (cols rows : Nat) : Matrix :=
  List.replicate rows (List.replicate cols emptyField)

/-! ### Claim C1 — collision predicate -/

/-- Fold-or characterisation used to reason about `isBlocked`. -/
theorem foldl_or_eq_true {α : Type} (p q r s : α → Bool) (l : List α) (b : Bool) :
    l.foldl (fun acc v => acc || p v || q v || r v || s v) b
      = (b || l.any (fun v => p v || q v || r v || s v)) := by
  induction l generalizing b with
  | nil => simp
  | cons hd tl ih =>
      simp only [List.foldl_cons, List.any_cons, ih]
      cases b <;> cases p hd <;> cases q hd <;> cases r hd <;> cases s hd <;> simp

/-- C1: `isBlocked(matrix, block)` is true iff some absolute cell of the block
violates the horizontal bounds, lies below the last row, or (when `y ≥ 0`)
occupies a non-empty matrix cell; cells with `y < 0` are exempt from the
occupancy check but not from the horizontal bound checks. -/
theorem isBlocked_iff (matrix : Matrix) (block : Block) :
    isBlocked matrix block = true ↔
      ∃ v ∈ toAbsVectors block,
        v.x < 0 ∨
        v.x > ((matrix.headD []).length : Int) - 1 ∨
        v.y > (matrix.length : Int) - 1 ∨
        (0 ≤ v.y ∧ matrixAt matrix v.y v.x ≠ emptyField) := by
  simp only [isBlocked]
  rw [foldl_or_eq_true]
  simp only [Bool.false_or, List.any_eq_true]
  constructor
  · rintro ⟨v, hv, hcond⟩
    refine ⟨v, hv, ?_⟩
    simp only [Bool.or_eq_true, decide_eq_true_eq, Bool.and_eq_true,
      bne_iff_ne, ne_eq, ge_iff_le] at hcond
    tauto
  · rintro ⟨v, hv, hcond⟩
    refine ⟨v, hv, ?_⟩
    simp only [Bool.or_eq_true, decide_eq_true_eq, Bool.and_eq_true,
      bne_iff_ne, ne_eq, ge_iff_le]
    tauto

/-! ### Rotation (`rotateBlockClockwise` from `game.ts`) -/

/-- Embedding of `reduce((acc, v) => f v > acc ? f v : acc, 0)` from `game.ts`:
maximum of `f` over the vectors, with initial accumulator `0`. -/
def foldMax (f : Vector → Int) (vs : List Vector) : Int :=
  vs.foldl (fun acc v => if f v > acc then f v else acc) 0

/-- Value of `Math.floor(a / 2)` for an integer `a`. -/
def floorHalf (a : Int) : Int := Int.fdiv a 2

/-- Value of `Math.ceil(a / 2)` for an integer `a`. -/
def ceilHalf (a : Int) : Int := -(Int.fdiv (-a) 2)

/-- Function `rotateBlockClockwise` from `game.ts`. -/
def rotateBlockClockwise (block : Block) : Block :=
  let maxYIndex := foldMax (·.y) block.vectors
  let maxXIndex := foldMax (·.x) block.vectors
  let vectors := block.vectors.map (fun v => ⟨maxYIndex - v.y, v.x⟩)
  let maxNewYIndex := foldMax (·.y) vectors
  let maxNewXIndex := foldMax (·.x) vectors
  let roundFn := if block.degrees % 180 = 0 then ceilHalf else floorHalf
  let xDistance := roundFn (maxNewXIndex - maxXIndex)
  let yDistance := roundFn (maxNewYIndex - maxYIndex)
  { degrees := block.degrees + 90,
    zero := ⟨block.zero.x - xDistance, block.zero.y - yDistance⟩,
    vectors := vectors }

theorem rotateBlockClockwise_vectors (b : Block) :
    (rotateBlockClockwise b).vectors
      = b.vectors.map (fun v => ⟨foldMax (·.y) b.vectors - v.y, v.x⟩) := rfl

/-! Fold-max toolbox. -/

theorem le_foldlMax (f : Vector → Int) (a : Int) (vs : List Vector) :
    a ≤ vs.foldl (fun acc v => if f v > acc then f v else acc) a := by
  induction vs generalizing a with
  | nil => simp
  | cons hd tl ih =>
      simp only [List.foldl_cons]
      refine le_trans ?_ (ih _)
      split <;> omega

theorem mem_le_foldlMax (f : Vector → Int) :
    ∀ (vs : List Vector) (a : Int) (v : Vector), v ∈ vs →
      f v ≤ vs.foldl (fun acc v => if f v > acc then f v else acc) a := by
  intro vs
  induction vs with
  | nil => intro a v hv; cases hv
  | cons hd tl ih =>
      intro a v hv
      simp only [List.foldl_cons]
      rcases List.mem_cons.mp hv with h | h
      · subst h
        refine le_trans ?_ (le_foldlMax f _ tl)
        split <;> omega
      · exact ih _ v h

theorem foldlMax_le (f : Vector → Int) :
    ∀ (vs : List Vector) (a m : Int), a ≤ m → (∀ v ∈ vs, f v ≤ m) →
      vs.foldl (fun acc v => if f v > acc then f v else acc) a ≤ m := by
  intro vs
  induction vs with
  | nil => intro a m ha _; simpa using ha
  | cons hd tl ih =>
      intro a m ha h
      simp only [List.foldl_cons]
      refine ih _ _ ?_ (fun v hv => h v (List.mem_cons_of_mem _ hv))
      have := h hd (List.mem_cons_self _ _)
      split <;> omega

theorem foldMax_nonneg (f : Vector → Int) (vs : List Vector) :
    0 ≤ foldMax f vs := le_foldlMax f 0 vs

theorem foldMax_eq (f : Vector → Int) (vs : List Vector) (m : Int)
    (hm : 0 ≤ m) (hub : ∀ v ∈ vs, f v ≤ m) (hat : ∃ v ∈ vs, f v = m) :
    foldMax f vs = m := by
  rcases hat with ⟨v, hv, hfv⟩
  refine le_antisymm (foldlMax_le f vs 0 m hm hub) ?_
  calc m = f v := hfv.symm
    _ ≤ _ := mem_le_foldlMax f vs 0 v hv

theorem foldMax_map (f : Vector → Int) (g : Vector → Vector) (vs : List Vector) :
    foldMax f (vs.map g) = foldMax (fun v => f (g v)) vs := by
  simp [foldMax, List.foldl_map]

/-! ### Claim C3 — rotation -/

/-- Boolean test that two vector lists contain the same set of vectors. -/
def sameVectorSet (l1 l2 : List Vector) : Bool :=
  l1.all (l2.contains ·) && l2.all (l1.contains ·)

/-- C3 counterexample: for the one-cell block with relative vector `(0, 1)`
(a block whose shape does not touch the `y = 0` line), four clockwise
rotations do **not** return the original set of relative vectors: the cell is
collapsed to `(0, 0)`. -/
theorem rotate_four_counterexample :
    sameVectorSet
      (rotateBlockClockwise (rotateBlockClockwise (rotateBlockClockwise
        (rotateBlockClockwise ⟨⟨0, 0⟩, [⟨0, 1⟩], 0⟩)))).vectors
      [⟨0, 1⟩] = false := by decide

/-- C3 (amended): for every block whose relative vectors are non-negative and
whose shape touches both the `x = 0` and `y = 0` lines (as every catalog shape
does), four applications of `rotateBlockClockwise` return exactly the original
relative vectors, and a single application maps every relative vector `(x, y)`
to `(maxY - y, x)` where `maxY` is the maximum `y` over the block's vectors
before the rotation. -/
theorem rotateBlockClockwise_four (b : Block)
    (hnn : ∀ v ∈ b.vectors, 0 ≤ v.x ∧ 0 ≤ v.y)
    (hx0 : ∃ v ∈ b.vectors, v.x = 0)
    (hy0 : ∃ v ∈ b.vectors, v.y = 0) :
    (rotateBlockClockwise (rotateBlockClockwise (rotateBlockClockwise
      (rotateBlockClockwise b)))).vectors = b.vectors
    ∧ ∀ m : Int, (∀ v ∈ b.vectors, v.y ≤ m) → (∃ v ∈ b.vectors, v.y = m) →
        (rotateBlockClockwise b).vectors
          = b.vectors.map (fun v => ⟨m - v.y, v.x⟩) := by
  have hmnn : ∀ m : Int, (∃ v ∈ b.vectors, v.y = m) → 0 ≤ m := by
    rintro m ⟨v, hv, rfl⟩
    exact (hnn v hv).2
  constructor
  · set A := foldMax (·.x) b.vectors with hA
    set B := foldMax (·.y) b.vectors with hB
    have hAnn : 0 ≤ A := foldMax_nonneg _ _
    have hBnn : 0 ≤ B := foldMax_nonneg _ _
    -- first rotation
    have h1 : (rotateBlockClockwise b).vectors
        = b.vectors.map (fun v => ⟨B - v.y, v.x⟩) := rotateBlockClockwise_vectors b
    -- maxima of the rotated vector list
    have h1y : foldMax (·.y) (rotateBlockClockwise b).vectors = A := by
      rw [h1, foldMax_map]
    -- second rotation
    have h2 : (rotateBlockClockwise (rotateBlockClockwise b)).vectors
        = b.vectors.map (fun v => ⟨A - v.x, B - v.y⟩) := by
      rw [rotateBlockClockwise_vectors, h1y, h1, List.map_map]
      rfl
    have h2y : foldMax (·.y) (rotateBlockClockwise (rotateBlockClockwise b)).vectors
        = B := by
      rw [h2, foldMax_map]
      refine foldMax_eq _ _ _ hBnn (fun v hv => ?_) ?_
      · show B - v.y ≤ B
        have := (hnn v hv).2
        omega
      · rcases hy0 with ⟨v, hv, hvy⟩
        refine ⟨v, hv, ?_⟩
        show B - v.y = B
        omega
    -- third rotation
    have h3 : (rotateBlockClockwise (rotateBlockClockwise (rotateBlockClockwise
        b))).vectors = b.vectors.map (fun v => ⟨v.y, A - v.x⟩) := by
      rw [rotateBlockClockwise_vectors, h2y, h2, List.map_map]
      refine List.map_congr_left (fun v hv => ?_)
      show (⟨B - (B - v.y), A - v.x⟩ : Vector) = ⟨v.y, A - v.x⟩
      simp only [Vector.mk.injEq, and_true]
      omega
    have h3y : foldMax (·.y) (rotateBlockClockwise (rotateBlockClockwise
        (rotateBlockClockwise b))).vectors = A := by
      rw [h3, foldMax_map]
      refine foldMax_eq _ _ _ hAnn (fun v hv => ?_) ?_
      · show A - v.x ≤ A
        have := (hnn v hv).1
        omega
      · rcases hx0 with ⟨v, hv, hvx⟩
        refine ⟨v, hv, ?_⟩
        show A - v.x = A
        omega
    -- fourth rotation
    rw [rotateBlockClockwise_vectors, h3y, h3, List.map_map]
    refine Eq.trans (List.map_congr_left (fun v hv => ?_)) (List.map_id b.vectors)
    cases v with
    | mk vx vy =>
        show (⟨A - (A - vx), vy⟩ : Vector) = id ⟨vx, vy⟩
        simp only [id_eq, Vector.mk.injEq, and_true]
        omega
  · intro m hub hat
    have hm : foldMax (·.y) b.vectors = m :=
      foldMax_eq _ _ _ (hmnn m hat) hub hat
    rw [rotateBlockClockwise_vectors, hm]

/-- Witness for C3 (amended), at the catalog T-shape
`[(0,1), (1,1), (1,0), (2,1)]`. -/
theorem rotateBlockClockwise_four_witness :
    (rotateBlockClockwise (rotateBlockClockwise (rotateBlockClockwise
      (rotateBlockClockwise
        ⟨⟨4, 0⟩, [⟨0, 1⟩, ⟨1, 1⟩, ⟨1, 0⟩, ⟨2, 1⟩], 0⟩)))).vectors
      = [⟨0, 1⟩, ⟨1, 1⟩, ⟨1, 0⟩, ⟨2, 1⟩]
    ∧ (rotateBlockClockwise ⟨⟨4, 0⟩, [⟨0, 1⟩, ⟨1, 1⟩, ⟨1, 0⟩, ⟨2, 1⟩], 0⟩).vectors
      = ([⟨0, 1⟩, ⟨1, 1⟩, ⟨1, 0⟩, ⟨2, 1⟩] : List Vector).map
          (fun v => ⟨1 - v.y, v.x⟩) := by
  have h := rotateBlockClockwise_four
    ⟨⟨4, 0⟩, [⟨0, 1⟩, ⟨1, 1⟩, ⟨1, 0⟩, ⟨2, 1⟩], 0⟩
    (by decide) (by decide) (by decide)
  exact ⟨h.1, h.2 1 (by decide) (by decide)⟩

/-! ### Block factory (`blocks.ts`) -/

/-- The 9-shape catalog `blockVectors` from `blocks.ts`. -/
def blockVectors : List (List Vector) :=
  [ [⟨0, 0⟩, ⟨0, 1⟩, ⟨0, 2⟩, ⟨0, 3⟩],
    [⟨0, 2⟩, ⟨1, 2⟩, ⟨1, 1⟩, ⟨1, 0⟩],
    [⟨1, 2⟩, ⟨0, 2⟩, ⟨0, 1⟩, ⟨0, 0⟩],
    [⟨0, 0⟩, ⟨1, 0⟩, ⟨0, 1⟩, ⟨1, 1⟩],
    [⟨0, 1⟩, ⟨1, 1⟩, ⟨1, 0⟩, ⟨2, 1⟩],
    [⟨0, 1⟩, ⟨1, 1⟩, ⟨1, 0⟩, ⟨2, 0⟩],
    [⟨0, 0⟩, ⟨1, 0⟩, ⟨1, 1⟩, ⟨2, 1⟩],
    [⟨1, 0⟩, ⟨1, 1⟩, ⟨0, 1⟩],
    [⟨0, 0⟩, ⟨0, 1⟩, ⟨0, 2⟩] ]

/-- Swap `[a[i], a[j]] = [a[j], a[i]]` from `blocks.ts` `shuffle`: both reads happen
before the two writes. -/
def swapAt (a : List Nat) (i j : Nat) : List Nat :=
  (a.set i (a.getD j 0)).set j (a.getD i 0)

/-- The Fisher-Yates loop of `shuffle` (`for (i = len-1; i > 0; i--)`), with
the loop counter as fuel; `js i` stands for the `Math.random()` draw at index
`i`, reduced mod `i + 1` so that `j = Math.floor(Math.random() * (i + 1))`
lies in `[0, i]`. -/
def shuffleFrom (js : Nat → Nat) : Nat → List Nat → List Nat
  | 0, a => a
  | i + 1, a => shuffleFrom js i (swapAt a (i + 1) (js (i + 1) % (i + 2)))

/-- Function `shuffle` from `blocks.ts`. -/
def shuffle (js : Nat → Nat) (a : List Nat) : List Nat :=
  shuffleFrom js (a.length - 1) a

/-- Function `generateBucket` from `blocks.ts`: the keys `0, …, n-1` of the catalog,
shuffled. -/
def generateBucket (vectors : List (List Vector)) (js : Nat → Nat) : List Nat :=
  shuffle js (List.range vectors.length)

/-- The closure state of `blockVectorFactory`: the current bucket, plus a
counter of how many buckets have been generated so far (it indexes the
randomness used for the next regeneration). -/
structure FactoryState where
  bucket : List Nat
  gen : Nat
deriving DecidableEq, Repr

/-- One call of the closure returned by `blockVectorFactory`: regenerate the
bucket if it is empty, then `pop()` the last element.  `none` is the
`throw Error('No elements in bucket left')` branch. -/
def factoryDraw (jss : Nat → Nat → Nat) (s : FactoryState) :
    Option (Nat × FactoryState) :=
  let b := if s.bucket.isEmpty then generateBucket blockVectors (jss s.gen)
           else s.bucket
  let g := if s.bucket.isEmpty then s.gen + 1 else s.gen
  match b.getLast? with
  | none => none
  | some k => some (k, ⟨b.dropLast, g⟩)

/-- Run of `n` consecutive factory calls: the list of drawn catalog keys and the
final factory state (stopping short if the impossible empty-bucket error
fires). -/
def drawsRun (jss : Nat → Nat → Nat) : Nat → FactoryState → List Nat × FactoryState
  | 0, s => ([], s)
  | n + 1, s =>
    match factoryDraw jss s with
    | none => ([], s)
    | some (k, s') =>
      let r := drawsRun jss n s'
      (k :: r.1, r.2)

/-- The factory state right after `blockVectorFactory()` builds the closure
(`let bucket = generateBucket(blockVectors)`). -/
def initFactoryState (jss : Nat → Nat → Nat) : FactoryState :=
  ⟨generateBucket blockVectors (jss 0), 1⟩

/-! Shuffling is a permutation. -/

theorem cons_getD_set_perm :
    ∀ (xs : List Nat) (m : Nat), m < xs.length → ∀ (x : Nat),
      List.Perm (xs.getD m 0 :: xs.set m x) (x :: xs) := by
  intro xs
  induction xs with
  | nil => intro m hm; cases hm
  | cons y ys ih =>
      intro m hm x
      cases m with
      | zero => exact List.Perm.swap x y ys
      | succ m =>
          have hm' : m < ys.length := by simpa using hm
          have h1 : List.getD (y :: ys) (m + 1) 0 :: (y :: ys).set (m + 1) x
              = ys.getD m 0 :: y :: ys.set m x := by simp [List.getD]
          rw [h1]
          refine (List.Perm.swap y (ys.getD m 0) (ys.set m x)).trans ?_
          exact ((ih m hm' x).cons y).trans (List.Perm.swap x y ys)

theorem swapAt_perm :
    ∀ (a : List Nat) (i j : Nat), i < a.length → j < a.length →
      List.Perm (swapAt a i j) a := by
  intro a
  induction a with
  | nil => intro i j hi; cases hi
  | cons y ys ih =>
      intro i j hi hj
      cases i with
      | zero =>
          cases j with
          | zero => simp [swapAt]
          | succ m =>
              have hm : m < ys.length := by simpa using hj
              have : swapAt (y :: ys) 0 (m + 1)
                  = ys.getD m 0 :: ys.set m y := by
                simp [swapAt, List.getD]
              rw [this]
              exact cons_getD_set_perm ys m hm y
      | succ m =>
          cases j with
          | zero =>
              have hm : m < ys.length := by simpa using hi
              have : swapAt (y :: ys) (m + 1) 0
                  = ys.getD m 0 :: ys.set m y := by
                simp [swapAt, List.getD]
              rw [this]
              exact cons_getD_set_perm ys m hm y
          | succ k =>
              have hm : m < ys.length := by simpa using hi
              have hk : k < ys.length := by simpa using hj
              have : swapAt (y :: ys) (m + 1) (k + 1)
                  = y :: swapAt ys m k := by
                simp [swapAt, List.getD]
              rw [this]
              exact (ih m k hm hk).cons y

theorem swapAt_length (a : List Nat) (i j : Nat) :
    (swapAt a i j).length = a.length := by
  simp [swapAt]

theorem shuffleFrom_perm (js : Nat → Nat) :
    ∀ (i : Nat) (a : List Nat), i < a.length →
      List.Perm (shuffleFrom js i a) a := by
  intro i
  induction i with
  | zero => intro a _; exact List.Perm.refl a
  | succ i ih =>
      intro a hi
      have hj : js (i + 1) % (i + 2) < a.length :=
        lt_of_le_of_lt (Nat.le_of_lt_succ (Nat.mod_lt _ (Nat.succ_pos _))) hi
      have hlen : (swapAt a (i + 1) (js (i + 1) % (i + 2))).length = a.length :=
        swapAt_length a _ _
      refine List.Perm.trans (ih _ ?_) (swapAt_perm a _ _ hi hj)
      omega

theorem shuffle_perm (js : Nat → Nat) (a : List Nat) :
    List.Perm (shuffle js a) a := by
  cases a with
  | nil => exact List.Perm.refl _
  | cons y ys =>
      exact shuffleFrom_perm js _ _ (by simp)

theorem generateBucket_perm (js : Nat → Nat) :
    List.Perm (generateBucket blockVectors js) (List.range blockVectors.length) :=
  shuffle_perm js _

theorem generateBucket_length (js : Nat → Nat) :
    (generateBucket blockVectors js).length = 9 := by
  rw [(generateBucket_perm js).length_eq]
  rfl

/-! Factory runs. -/

theorem factoryDraw_ne_none (jss : Nat → Nat → Nat) (s : FactoryState) :
    factoryDraw jss s ≠ none := by
  unfold factoryDraw
  by_cases h : s.bucket.isEmpty
  · have h9 := generateBucket_length (jss s.gen)
    have hne : generateBucket blockVectors (jss s.gen) ≠ [] := by
      intro hnil; rw [hnil] at h9; simp at h9
    rcases Option.isSome_iff_exists.mp (List.getLast?_isSome.mpr hne) with ⟨k, hk⟩
    simp [h, hk]
  · have hne : s.bucket ≠ [] := fun hnil => h (by simp [hnil])
    rcases Option.isSome_iff_exists.mp (List.getLast?_isSome.mpr hne) with ⟨k, hk⟩
    simp [h, hk]

theorem factoryDraw_nonempty (jss : Nat → Nat → Nat) (b : List Nat) (g : Nat)
    (x : Nat) :
    factoryDraw jss ⟨b ++ [x], g⟩ = some (x, ⟨b, g⟩) := by
  unfold factoryDraw
  simp

theorem factoryDraw_empty (jss : Nat → Nat → Nat) (g : Nat) (b : List Nat)
    (x : Nat) (hb : generateBucket blockVectors (jss g) = b ++ [x]) :
    factoryDraw jss ⟨[], g⟩ = some (x, ⟨b, g + 1⟩) := by
  unfold factoryDraw
  simp [hb]

/-- One successful draw unfolds one step of `drawsRun`. -/
theorem drawsRun_succ (jss : Nat → Nat → Nat) (n : Nat) (s : FactoryState)
    (k : Nat) (s' : FactoryState) (h : factoryDraw jss s = some (k, s')) :
    drawsRun jss (n + 1) s
      = (k :: (drawsRun jss n s').1, (drawsRun jss n s').2) := by
  rw [drawsRun, h]

/-- Draining a non-regenerated bucket pops its elements back-to-front. -/
theorem drawsRun_full (jss : Nat → Nat → Nat) :
    ∀ (b : List Nat) (g : Nat),
      drawsRun jss b.length ⟨b, g⟩ = (b.reverse, ⟨[], g⟩) := by
  intro b
  induction b using List.reverseRecOn with
  | nil => intro g; rfl
  | append_singleton xs x ih =>
      intro g
      have hlen : (xs ++ [x]).length = xs.length + 1 := by simp
      rw [hlen, drawsRun_succ jss xs.length _ x ⟨xs, g⟩
        (factoryDraw_nonempty jss xs g x), ih g]
      simp

/-- Drawing from an exhausted bucket regenerates a bag and drains it. -/
theorem drawsRun_regen (jss : Nat → Nat → Nat) (g : Nat) :
    drawsRun jss 9 ⟨[], g⟩
      = ((generateBucket blockVectors (jss g)).reverse, ⟨[], g + 1⟩) := by
  have h9 := generateBucket_length (jss g)
  have hne : generateBucket blockVectors (jss g) ≠ [] := by
    intro hnil; rw [hnil] at h9; simp at h9
  obtain ⟨xs, x, hb⟩ : ∃ xs x, generateBucket blockVectors (jss g) = xs ++ [x] :=
    ⟨_, _, (List.dropLast_append_getLast hne).symm⟩
  have hxs : xs.length = 8 := by
    have h' := h9; rw [hb] at h'; simpa using h'
  have h89 : (9 : Nat) = xs.length + 1 := by omega
  rw [h89, drawsRun_succ jss xs.length _ x ⟨xs, g + 1⟩
    (factoryDraw_empty jss g xs x hb), drawsRun_full jss xs (g + 1), hb]
  simp

/-- Runs compose (no draw can fail, so no truncation happens). -/
theorem drawsRun_add (jss : Nat → Nat → Nat) :
    ∀ (m n : Nat) (s : FactoryState),
      drawsRun jss (m + n) s
        = ((drawsRun jss m s).1 ++ (drawsRun jss n (drawsRun jss m s).2).1,
           (drawsRun jss n (drawsRun jss m s).2).2) := by
  intro m
  induction m with
  | zero =>
      intro n s
      simp [drawsRun, Nat.zero_add]
  | succ m ih =>
      intro n s
      have : m + 1 + n = (m + n) + 1 := by omega
      rw [this]
      obtain ⟨⟨k, s'⟩, hd⟩ : ∃ p, factoryDraw jss s = some p := by
        rcases h : factoryDraw jss s with _ | p
        · exact absurd h (factoryDraw_ne_none jss s)
        · exact ⟨p, rfl⟩
      simp only [drawsRun, hd, ih n s', List.cons_append]

/-- The factory state after any whole number of bags has been drained. -/
theorem drawsRun_bag_state (jss : Nat → Nat → Nat) :
    ∀ n : Nat, (drawsRun jss (9 * n) (initFactoryState jss)).2
      = if n = 0 then initFactoryState jss else ⟨[], n⟩ := by
  intro n
  induction n with
  | zero => rfl
  | succ n ih =>
      have h : 9 * (n + 1) = 9 * n + 9 := by ring
      rw [h, drawsRun_add, ih]
      cases n with
      | zero =>
          have h9 : (9 : Nat) = (generateBucket blockVectors (jss 0)).length :=
            (generateBucket_length (jss 0)).symm
          rw [if_pos rfl, if_neg (by omega)]
          simp only [initFactoryState]
          rw [h9, drawsRun_full]
      | succ n =>
          rw [if_neg (by omega), if_neg (by omega), drawsRun_regen]

/-! ### Claim C4 — the factory is a bag randomizer -/

set_option maxHeartbeats 2000000 in
/-- C4: the catalog has 9 distinct shapes; a factory call can never hit the
fatal `'No elements in bucket left'` branch; and the draw sequence decomposes
into consecutive bags of 9 draws, each of which is a permutation of the 9
catalog keys — so every shape appears exactly once before any shape repeats,
and a fresh shuffled bag is used once a bag is exhausted. -/
theorem blockFactory_bag (jss : Nat → Nat → Nat) (n : Nat) :
    blockVectors.length = 9
    ∧ blockVectors.Nodup
    ∧ (∀ s : FactoryState, factoryDraw jss s ≠ none)
    ∧ (drawsRun jss (9 * n + 9) (initFactoryState jss)).1
        = (drawsRun jss (9 * n) (initFactoryState jss)).1
          ++ (drawsRun jss 9 ((drawsRun jss (9 * n) (initFactoryState jss)).2)).1
    ∧ List.Perm
        (drawsRun jss 9 ((drawsRun jss (9 * n) (initFactoryState jss)).2)).1
        (List.range blockVectors.length) := by
  refine ⟨rfl, by decide, factoryDraw_ne_none jss, ?_, ?_⟩
  · rw [drawsRun_add jss (9 * n) 9 (initFactoryState jss)]
  · rw [drawsRun_bag_state]
    cases n with
    | zero =>
        rw [if_pos rfl]
        simp only [initFactoryState]
        have h9 : (9 : Nat) = (generateBucket blockVectors (jss 0)).length :=
          (generateBucket_length (jss 0)).symm
        rw [h9, drawsRun_full]
        exact (List.reverse_perm _).trans (generateBucket_perm (jss 0))
    | succ n =>
        rw [if_neg (by omega), drawsRun_regen]
        exact (List.reverse_perm (generateBucket blockVectors (jss (n + 1)))).trans
          (generateBucket_perm (jss (n + 1)))

/-! ### Game engine state (`game.ts`) -/

/-- Game status; the source uses the string constants `statusWaiting`,
`statusRunning`, `statusEnded`, `statusPaused`. -/
inductive GameStatus where
  | waiting
  | running
  | ended
  | paused
deriving DecidableEq, Repr

/-- Configuration record `GameConfig {cols, rows, name}`. -/
structure GameConfig where
  cols : Nat
  rows : Nat
  name : String
deriving DecidableEq, Repr

/-- State record `GameState` from `models/game.ts`; `players` is the
`Record<playerId, {points}>` object embedded as an association list in key
insertion order, `currentPlayer` its key for scoring. -/
structure GameState where
  owner : String
  cols : Nat
  id : String
  name : String
  rows : Nat
  status : GameStatus
  blockCount : Nat
  level : Nat
  lineCount : Nat
  stepCount : Nat
  matrix : Matrix
  players : List (String × Nat)
  currentPlayer : String
  activeBlock : Option Block
  nextBlock : Option Block
deriving DecidableEq, Repr

/-- Lookup `players[p]` (the points of player `p`, when present). -/
def lookupPlayer (players : List (String × Nat)) (p : String) : Option Nat :=
  match players.find? (fun q => q.1 == p) with
  | some q => some q.2
  | none => none

/-- Deletion `delete players[p]`. -/
def removePlayerEntry (players : List (String × Nat)) (p : String) :
    List (String × Nat) :=
  players.filter (fun q => !(q.1 == p))

/-- Update `players[cp].points += pts`.  (In JS a missing key would throw a
`TypeError`; the embedding then leaves the list unchanged, and the theorems
that touch scoring assume the key is present.) -/
def addPointsTo (players : List (String × Nat)) (cp : String) (pts : Nat) :
    List (String × Nat) :=
  players.map (fun q => if q.1 == cp then (q.1, q.2 + pts) else q)

/-- Internal state of `createGameHandle`: the public `GameState`, the pending
input queue, and the shuffle-bag state of the shared `blockFactory` closure.
The `loopInterval` timer handle and the listener array are not part of the
embedding (events are returned as lists instead). -/
structure InternalGameState where
  state : GameState
  userQueue : List String
  blockFactory : FactoryState
deriving DecidableEq, Repr

/-- Direction constant `DOWN = 'down'`. -/
def DOWN : String := "down"

/-- Direction constant `LEFT = 'left'`. -/
def LEFT : String := "left"

/-- Direction constant `RIGHT = 'right'`. -/
def RIGHT : String := "right"

/-- Direction constant `ROTATE = 'rotate'`. -/
def ROTATE : String := "rotate"

/-- Constant `LEVEL_THRESHOLD = 10`. -/
def LEVEL_THRESHOLD : Nat := 10

/-- Event name `looped`. -/
def looped : String := "looped"

/-- Event name `blockCreated`. -/
def blockCreated : String := "blockCreated"

/-- Event name `linesCompleted`. -/
def linesCompleted : String := "linesCompleted"

/-- Event name `statusChanged`. -/
def statusChanged : String := "statusChanged"

/-- Function `createGameState` from `game.ts`; the `v4()` uuid is a
parameter. -/
def createGameState (owner id : String) : GameState :=
  { owner := owner
    cols := 10
    id := id
    name := "New Game"
    rows := 20
    status := .waiting
    blockCount := 0
    level := 0
    lineCount := 0
    stepCount := 0
    matrix := []
    players := []
    currentPlayer := ""
    activeBlock := none
    nextBlock := none }

/-- Function `createBlock` from `game.ts`: draw a catalog key from the
factory and place the shape at `{x: floor(cols/2), y: 0}`.  The `none`
branch of the draw is the unreachable `'No elements in bucket left'` throw
(see `factoryDraw_ne_none`); it keeps the factory state and yields an empty
shape. -/
def createBlock (jss : Nat → Nat → Nat) (cols : Nat) (fs : FactoryState) :
    Block × FactoryState :=
  match factoryDraw jss fs with
  | some (k, fs') =>
      ({ zero := ⟨(cols / 2 : Nat), 0⟩, vectors := blockVectors.getD k [],
         degrees := 0 }, fs')
  | none => ({ zero := ⟨(cols / 2 : Nat), 0⟩, vectors := [], degrees := 0 }, fs)

/-- Assignment `matrix[v.y][v.x] = val` (no-op out of range; the engine only
reaches it with cells inside the matrix). -/
def setCell (m : Matrix) (v : Vector) (val : Nat) : Matrix :=
  m.set v.y.toNat ((m.getD v.y.toNat []).set v.x.toNat val)

/-- Function `drawBlock` from `game.ts`: mark every absolute cell with
`v.y >= 0 && v.x >= 0` as occupied. -/
def drawBlock (m : Matrix) (block : Block) : Matrix :=
  (toAbsVectors block).foldl
    (fun acc v => if 0 ≤ v.y ∧ 0 ≤ v.x then setCell acc v 1 else acc) m

/-- Function `eraseBlock` from `game.ts` (its argument is optional in the
source): clear every absolute cell with `v.y >= 0 && v.x >= 0`. -/
def eraseBlock (m : Matrix) (block : Option Block) : Matrix :=
  match block with
  | none => m
  | some b =>
      (toAbsVectors b).foldl
        (fun acc v => if 0 ≤ v.y ∧ 0 ≤ v.x then setCell acc v emptyField else acc) m

/-- Option-lifted `drawBlock`: `initNextBlock` passes `activeBlock`, which is
always present when the branch is reached in a started game (JS would throw
on `undefined`). -/
def drawBlockO (m : Matrix) (block : Option Block) : Matrix :=
  match block with
  | none => m
  | some b => drawBlock m b

/-- Option-lifted `isBlocked`, same role as `drawBlockO`. -/
def isBlockedO (m : Matrix) (block : Option Block) : Bool :=
  match block with
  | none => false
  | some b => isBlocked m b

/-! ### Line clearing (`updateLines`, `dropLinesFromMatrix`, `calculatePoints`) -/

/-- Row completeness from `updateLines`:
`row.reduce((accL, cell) => accL && cell !== emptyField, true)`. -/
def lineComplete (row : List Nat) : Bool :=
  row.foldl (fun acc cell => acc && (cell != emptyField)) true

/-- Index accumulation of `updateLines`' outer `reduce`: the indices of the
complete rows, in order; `i` is the index of the first row of the suffix. -/
def foundLinesAux : Nat → List (List Nat) → List Nat
  | _, [] => []
  | i, r :: rs =>
      if lineComplete r then i :: foundLinesAux (i + 1) rs
      else foundLinesAux (i + 1) rs

/-- Indices of all complete rows of the matrix. -/
def foundLines (m : Matrix) : List Nat := foundLinesAux 0 m

/-- Row-keeping loop of `dropLinesFromMatrix`
(`if (foundLines.includes(row)) continue; newMatrix.push(...)`). -/
def keptRowsAux (fl : List Nat) : Nat → List (List Nat) → List (List Nat)
  | _, [] => []
  | i, r :: rs =>
      if fl.contains i then keptRowsAux fl (i + 1) rs
      else r :: keptRowsAux fl (i + 1) rs

/-- Function `dropLinesFromMatrix` from `game.ts`: a fresh empty matrix with
one row per cleared line (`createMatrix(matrix[0].length, foundLines.length)`)
followed by the surviving rows. -/
def dropLinesFromMatrix (matrix : Matrix) (fl : List Nat) : Matrix :=
  createMatrix (matrix.headD []).length fl.length ++ keptRowsAux fl 0 matrix

/-- Function `calculatePoints` from `game.ts` (the `switch` on the number of
cleared lines; everything outside 1-4 falls to the `default: 1500`). -/
def calculatePoints (foundLines level : Nat) : Nat :=
  (match foundLines with
   | 1 => 40
   | 2 => 100
   | 3 => 300
   | 4 => 1200
   | _ => 1500) * (level + 1)

/-- Function `updateLines` from `game.ts`. -/
def updateLines (s : InternalGameState) : InternalGameState × List String :=
  let fl := foundLines s.state.matrix
  if fl.length = 0 then (s, [])
  else
    let lineCount := s.state.lineCount + fl.length
    let level := lineCount / LEVEL_THRESHOLD
    let players := addPointsTo s.state.players s.state.currentPlayer
      (calculatePoints fl.length level)
    ({ s with state := { s.state with
        lineCount := lineCount
        level := level
        players := players
        matrix := dropLinesFromMatrix s.state.matrix fl } },
     [linesCompleted])

/-! ### Engine operations (`game.ts`) -/

/-- Internal `stop` from `game.ts` (sans `clearInterval`): set status `ended`
and publish `statusChanged`. -/
def stopInternal (s : InternalGameState) : InternalGameState × List String :=
  ({ s with state := { s.state with status := .ended } }, [statusChanged])

/-- Function `initNextBlock` from `game.ts`: promote `nextBlock`, draw a new
`nextBlock`, bump `blockCount`, test collision of the promoted block, draw it
regardless, publish `blockCreated`, and stop the game if it was blocked. -/
def initNextBlock (jss : Nat → Nat → Nat) (s : InternalGameState) :
    InternalGameState × List String :=
  let drawn := createBlock jss s.state.cols s.blockFactory
  let active := s.state.nextBlock
  let blocked := isBlockedO s.state.matrix active
  let out : InternalGameState :=
    { s with
      state := { s.state with
        activeBlock := active
        nextBlock := some drawn.1
        blockCount := s.state.blockCount + 1
        matrix := drawBlockO s.state.matrix active }
      blockFactory := drawn.2 }
  if blocked then
    ((stopInternal out).1, blockCreated :: (stopInternal out).2)
  else (out, [blockCreated])

/-- Function `move` from `game.ts`.  The unknown-direction branch mirrors the
fall-through of the `switch` (the erased block is simply redrawn). -/
def move (jss : Nat → Nat → Nat) (s : InternalGameState) (direction : String) :
    InternalGameState × List String :=
  if s.state.status ≠ .running then (s, [])
  else
    let out1 : InternalGameState :=
      { s with state := { s.state with stepCount := s.state.stepCount + 1 } }
    match s.state.activeBlock with
    | none => initNextBlock jss out1
    | some ab =>
      let m1 := eraseBlock out1.state.matrix (some ab)
      if direction = DOWN then
        let checkBlock : Block := { ab with zero := ⟨ab.zero.x, ab.zero.y + 1⟩ }
        if isBlocked m1 checkBlock then
          updateLines { out1 with state := { out1.state with
            matrix := drawBlock m1 ab
            activeBlock := none } }
        else
          ({ out1 with state := { out1.state with
              matrix := drawBlock m1 checkBlock
              activeBlock := some checkBlock } }, [])
      else if direction = LEFT ∨ direction = RIGHT then
        let dx : Int := if direction = LEFT then -1 else 1
        let checkBlock : Block := { ab with zero := ⟨ab.zero.x + dx, ab.zero.y⟩ }
        if isBlocked m1 checkBlock then
          ({ out1 with state := { out1.state with
              matrix := drawBlock m1 ab } }, [])
        else
          ({ out1 with state := { out1.state with
              matrix := drawBlock (eraseBlock m1 (some ab)) checkBlock
              activeBlock := some checkBlock } }, [])
      else
        ({ out1 with state := { out1.state with
            matrix := drawBlock m1 ab } }, [])

/-- Function `rotate` from `game.ts`: on a blocked rotation the original
(uncloned) state is returned, so the `stepCount++` on the clone is lost. -/
def rotate (s : InternalGameState) : InternalGameState × List String :=
  match s.state.activeBlock with
  | none => (s, [])
  | some ab =>
    if s.state.status ≠ .running then (s, [])
    else
      let rotatedBlock := rotateBlockClockwise ab
      let m1 := eraseBlock s.state.matrix (some ab)
      if isBlocked m1 rotatedBlock then (s, [])
      else
        ({ s with state := { s.state with
            stepCount := s.state.stepCount + 1
            activeBlock := some rotatedBlock
            matrix := drawBlock m1 rotatedBlock } }, [])

/-- Internal `start` from `game.ts` (sans `setInterval`): build the matrix,
set status `running`, draw `activeBlock` then `nextBlock`. -/
def startInternal (jss : Nat → Nat → Nat) (s : InternalGameState) :
    InternalGameState × List String :=
  let d1 := createBlock jss s.state.cols s.blockFactory
  let d2 := createBlock jss s.state.cols d1.2
  ({ s with
      state := { s.state with
        matrix := createMatrix s.state.cols s.state.rows
        status := .running
        activeBlock := some d1.1
        nextBlock := some d2.1 }
      blockFactory := d2.2 }, [])

/-- Handle operation `addPlayer` from `createGameHandle`. -/
def addPlayer (s : InternalGameState) (p : String) :
    InternalGameState × List String :=
  if s.state.status ≠ .waiting then (s, [])
  else if (lookupPlayer s.state.players p).isSome then (s, [])
  else
    ({ s with state := { s.state with players := s.state.players ++ [(p, 0)] } },
     ["player_added"])

/-- Handle operation `removePlayer` from `createGameHandle`. -/
def removePlayer (s : InternalGameState) (p : String) :
    InternalGameState × List String :=
  if (lookupPlayer s.state.players p).isSome then
    ({ s with state := { s.state with
        players := removePlayerEntry s.state.players p } },
     ["player_removed"])
  else (s, [])

/-- Handle operation `configure` from `createGameHandle`. -/
def configure (s : InternalGameState) (c : GameConfig) :
    InternalGameState × List String :=
  if s.state.status ≠ .waiting then (s, [])
  else
    ({ s with state := { s.state with
        cols := c.cols
        rows := c.rows
        name := c.name } }, ["config_updated"])

/-! ### The tick (`loop`) and the handle operations -/

/-- Dispatch of one queued action in `loop`'s `switch` (unknown strings fall
through and are dropped). -/
def applyAction (jss : Nat → Nat → Nat) (s : InternalGameState) (a : String) :
    InternalGameState × List String :=
  if a = ROTATE then rotate s
  else if a = LEFT ∨ a = RIGHT ∨ a = DOWN then move jss s a
  else (s, [])

/-- Full FIFO drain of the pending-input queue (`while true / shift`). -/
def drainQueue (jss : Nat → Nat → Nat) :
    List String → InternalGameState → InternalGameState × List String
  | [], s => (s, [])
  | a :: rest, s =>
    let r1 := applyAction jss s a
    let r2 := drainQueue jss rest r1.1
    (r2.1, r1.2 ++ r2.2)

/-- One execution of `loop` from `game.ts`.  The gravity timer comparison
(`now > lastMoveTime + 200`) is abstracted into the boolean `gravityDue`. -/
def loop (jss : Nat → Nat → Nat) (gravityDue : Bool) (s : InternalGameState) :
    InternalGameState × List String :=
  if s.userQueue ≠ [] then
    let r := drainQueue jss s.userQueue { s with userQueue := [] }
    (r.1, r.2 ++ [looped])
  else if gravityDue then
    let r := move jss s DOWN
    (r.1, r.2 ++ [looped])
  else (s, [])

/-- Operations available on a game handle (`createGameHandle`), plus the
timer tick. -/
inductive Op where
  | start : Op
  | stop : Op
  | configure (c : GameConfig) : Op
  | addPlayer (p : String) : Op
  | removePlayer (p : String) : Op
  | moveDown : Op
  | moveLeft : Op
  | moveRight : Op
  | rotateCmd : Op
  | tick (gravityDue : Bool) : Op
deriving DecidableEq, Repr

/-- Application of one handle operation, with the events it publishes.
`handle.start` publishes `started` after the internal `start`; `handle.stop`
publishes `stopped` after the internal `stop` (which publishes
`statusChanged`); the `move*`/`rotate` handle methods only enqueue. -/
def applyOp (jss : Nat → Nat → Nat) : Op → InternalGameState →
    InternalGameState × List String
  | .start, s =>
      ((startInternal jss s).1, (startInternal jss s).2 ++ ["started"])
  | .stop, s =>
      ((stopInternal s).1, (stopInternal s).2 ++ ["stopped"])
  | .configure c, s => configure s c
  | .addPlayer p, s => addPlayer s p
  | .removePlayer p, s => removePlayer s p
  | .moveDown, s => ({ s with userQueue := s.userQueue ++ [DOWN] }, [])
  | .moveLeft, s => ({ s with userQueue := s.userQueue ++ [LEFT] }, [])
  | .moveRight, s => ({ s with userQueue := s.userQueue ++ [RIGHT] }, [])
  | .rotateCmd, s => ({ s with userQueue := s.userQueue ++ [ROTATE] }, [])
  | .tick g, s => loop jss g s

/-- Function `createGameHandle` from `game.ts`: initial internal state. -/
def createGameHandle (jss : Nat → Nat → Nat) (owner id : String) :
    InternalGameState :=
  { state := createGameState owner id
    userQueue := []
    blockFactory := initFactoryState jss }

/-! ### Claim C10 — removePlayer is a silent no-op for absent players -/

/-- C10: `removePlayer(p)` leaves the state untouched and publishes nothing
when `p` is not among the players; when `p` is present it removes the entry
and publishes `player_removed` — so the event fires exactly when a player was
actually removed. -/
theorem removePlayer_spec (s : InternalGameState) (p : String) :
    (lookupPlayer s.state.players p = none → removePlayer s p = (s, []))
    ∧ ((lookupPlayer s.state.players p).isSome →
        removePlayer s p
          = ({ s with state := { s.state with
              players := removePlayerEntry s.state.players p } },
             ["player_removed"])) := by
  constructor
  · intro h
    simp [removePlayer, h]
  · intro h
    simp [removePlayer, h]

/-- Sample internal state with one registered player, for C10's witness. -/
def sampleStateC10 : InternalGameState :=
  { state := { createGameState "own" "gid10" with players := [("a", 3)] }
    userQueue := []
    blockFactory := ⟨[], 0⟩ }

/-- Witness for C10 at a concrete state: removing the absent `"b"` is a
no-op, removing the present `"a"` fires the event. -/
theorem removePlayer_spec_witness :
    removePlayer sampleStateC10 "b" = (sampleStateC10, [])
    ∧ removePlayer sampleStateC10 "a"
        = ({ sampleStateC10 with state := { sampleStateC10.state with
            players := removePlayerEntry sampleStateC10.state.players "a" } },
           ["player_removed"]) :=
  ⟨(removePlayer_spec sampleStateC10 "b").1 rfl,
   (removePlayer_spec sampleStateC10 "a").2 rfl⟩

/-! ### Claim C8 — is `ended` terminal? -/

theorem move_not_running (jss : Nat → Nat → Nat) (s : InternalGameState)
    (dir : String) (h : s.state.status ≠ .running) :
    move jss s dir = (s, []) := by
  rw [move, if_pos h]

theorem rotate_not_running (s : InternalGameState)
    (h : s.state.status ≠ .running) :
    rotate s = (s, []) := by
  rcases hab : s.state.activeBlock with _ | ab
  · simp [rotate, hab]
  · simp [rotate, hab, h]

theorem applyAction_not_running (jss : Nat → Nat → Nat)
    (s : InternalGameState) (a : String) (h : s.state.status ≠ .running) :
    applyAction jss s a = (s, []) := by
  by_cases h1 : a = ROTATE
  · rw [applyAction, if_pos h1]
    exact rotate_not_running s h
  · by_cases h2 : a = LEFT ∨ a = RIGHT ∨ a = DOWN
    · rw [applyAction, if_neg h1, if_pos h2]
      exact move_not_running jss s a h
    · rw [applyAction, if_neg h1, if_neg h2]

theorem drainQueue_not_running (jss : Nat → Nat → Nat) :
    ∀ (q : List String) (s : InternalGameState),
      s.state.status ≠ .running → drainQueue jss q s = (s, []) := by
  intro q
  induction q with
  | nil => intro s _; rfl
  | cons a rest ih =>
      intro s h
      simp [drainQueue, applyAction_not_running jss s a h, ih s h]

theorem loop_status_not_running (jss : Nat → Nat → Nat) (g : Bool)
    (s : InternalGameState) (h : s.state.status ≠ .running) :
    ((loop jss g s).1).state = s.state := by
  rw [loop]
  by_cases hq : s.userQueue ≠ []
  · rw [if_pos hq]
    have hd := drainQueue_not_running jss s.userQueue
      { s with userQueue := [] } h
    simp [hd]
  · rw [if_neg hq]
    cases g with
    | false => rfl
    | true => simp [move_not_running jss s DOWN h]

/-- Internal state of a game that has ended, for C8. -/
def endedStateC8 : InternalGameState :=
  { state := { createGameState "own" "gid8" with status := .ended }
    userQueue := []
    blockFactory := ⟨[], 0⟩ }

/-- C8 counterexample: `start()` carries no status guard, so calling it on an
ended game puts the status back to `running` — `ended` is not terminal under
the full operation set. -/
theorem ended_terminal_counterexample :
    endedStateC8.state.status = GameStatus.ended
    ∧ ((applyOp (fun _ _ => 0) Op.start endedStateC8).1).state.status
        = GameStatus.running :=
  ⟨rfl, rfl⟩

/-- C8 (amended): every handle operation and the tick preserve status
`ended`, except `start`, which unconditionally restarts the game (the source
`start` has no status guard). -/
theorem ended_preserved (jss : Nat → Nat → Nat) (op : Op)
    (s : InternalGameState) (hs : s.state.status = .ended)
    (hop : op ≠ Op.start) :
    ((applyOp jss op s).1).state.status = .ended := by
  have hnr : s.state.status ≠ .running := by rw [hs]; intro hc; cases hc
  cases op with
  | start => exact absurd rfl hop
  | stop => simp [applyOp, stopInternal]
  | configure c =>
      have hw : s.state.status ≠ .waiting := by rw [hs]; intro hc; cases hc
      simp [applyOp, configure, hw, hs]
  | addPlayer p =>
      have hw : s.state.status ≠ .waiting := by rw [hs]; intro hc; cases hc
      simp [applyOp, addPlayer, hw, hs]
  | removePlayer p =>
      by_cases h : (lookupPlayer s.state.players p).isSome
      · simp [applyOp, removePlayer, h, hs]
      · simp [applyOp, removePlayer, h, hs]
  | moveDown => simpa [applyOp] using hs
  | moveLeft => simpa [applyOp] using hs
  | moveRight => simpa [applyOp] using hs
  | rotateCmd => simpa [applyOp] using hs
  | tick g =>
      show ((loop jss g s).1).state.status = .ended
      rw [loop_status_not_running jss g s hnr]
      exact hs

/-- Witness for C8 (amended) at a concrete ended state and the `stop`
operation. -/
theorem ended_preserved_witness :
    ((applyOp (fun _ _ => 0) Op.stop endedStateC8).1).state.status
      = GameStatus.ended :=
  ended_preserved (fun _ _ => 0) Op.stop endedStateC8 rfl (by decide)

/-! ### Claim C6 — `level = floor(lineCount / 10)` is an invariant -/

theorem levelInv_updateLines (s : InternalGameState)
    (h : s.state.level = s.state.lineCount / LEVEL_THRESHOLD) :
    ((updateLines s).1).state.level
      = ((updateLines s).1).state.lineCount / LEVEL_THRESHOLD := by
  rw [updateLines]
  dsimp only
  by_cases hk : (foundLines s.state.matrix).length = 0
  · rw [if_pos hk]
    exact h
  · rw [if_neg hk]

theorem levelInv_initNextBlock (jss : Nat → Nat → Nat) (s : InternalGameState)
    (h : s.state.level = s.state.lineCount / LEVEL_THRESHOLD) :
    ((initNextBlock jss s).1).state.level
      = ((initNextBlock jss s).1).state.lineCount / LEVEL_THRESHOLD := by
  rw [initNextBlock]
  split
  · exact h
  · exact h

theorem levelInv_move (jss : Nat → Nat → Nat) (s : InternalGameState)
    (dir : String)
    (h : s.state.level = s.state.lineCount / LEVEL_THRESHOLD) :
    ((move jss s dir).1).state.level
      = ((move jss s dir).1).state.lineCount / LEVEL_THRESHOLD := by
  rw [move]
  split
  · exact h
  · split
    · exact levelInv_initNextBlock jss _ h
    · dsimp only
      split
      · split
        · exact levelInv_updateLines _ h
        · exact h
      · repeat' split
        all_goals exact h

theorem levelInv_rotate (s : InternalGameState)
    (h : s.state.level = s.state.lineCount / LEVEL_THRESHOLD) :
    ((rotate s).1).state.level
      = ((rotate s).1).state.lineCount / LEVEL_THRESHOLD := by
  rw [rotate]
  split
  · exact h
  · split
    · exact h
    · dsimp only
      split
      · exact h
      · exact h

theorem levelInv_applyAction (jss : Nat → Nat → Nat) (s : InternalGameState)
    (a : String)
    (h : s.state.level = s.state.lineCount / LEVEL_THRESHOLD) :
    ((applyAction jss s a).1).state.level
      = ((applyAction jss s a).1).state.lineCount / LEVEL_THRESHOLD := by
  rw [applyAction]
  split
  · exact levelInv_rotate s h
  · split
    · exact levelInv_move jss s a h
    · exact h

theorem levelInv_drainQueue (jss : Nat → Nat → Nat) :
    ∀ (q : List String) (s : InternalGameState),
      s.state.level = s.state.lineCount / LEVEL_THRESHOLD →
      ((drainQueue jss q s).1).state.level
        = ((drainQueue jss q s).1).state.lineCount / LEVEL_THRESHOLD := by
  intro q
  induction q with
  | nil => intro s h; exact h
  | cons a rest ih =>
      intro s h
      exact ih _ (levelInv_applyAction jss s a h)

theorem levelInv_loop (jss : Nat → Nat → Nat) (g : Bool)
    (s : InternalGameState)
    (h : s.state.level = s.state.lineCount / LEVEL_THRESHOLD) :
    ((loop jss g s).1).state.level
      = ((loop jss g s).1).state.lineCount / LEVEL_THRESHOLD := by
  rw [loop]
  split
  · exact levelInv_drainQueue jss s.userQueue _ h
  · split
    · exact levelInv_move jss s DOWN h
    · exact h

/-- C6: the initial state satisfies `level = lineCount / 10` (both zero), and
every engine operation — handle operations and the tick — preserves it; the
line-clear step is the only mutator of either field and recomputes `level`
from the updated `lineCount`. -/
theorem level_invariant (jss : Nat → Nat → Nat) (owner id : String) (op : Op)
    (s : InternalGameState)
    (h : s.state.level = s.state.lineCount / LEVEL_THRESHOLD) :
    (createGameState owner id).level
        = (createGameState owner id).lineCount / LEVEL_THRESHOLD
    ∧ ((applyOp jss op s).1).state.level
        = ((applyOp jss op s).1).state.lineCount / LEVEL_THRESHOLD := by
  refine ⟨by simp [createGameState, LEVEL_THRESHOLD], ?_⟩
  cases op with
  | start => exact h
  | stop => exact h
  | configure c =>
      rw [applyOp, configure]
      split
      · exact h
      · exact h
  | addPlayer p =>
      rw [applyOp, addPlayer]
      split
      · exact h
      · split
        · exact h
        · exact h
  | removePlayer p =>
      rw [applyOp, removePlayer]
      split
      · exact h
      · exact h
  | moveDown => exact h
  | moveLeft => exact h
  | moveRight => exact h
  | rotateCmd => exact h
  | tick g => exact levelInv_loop jss g s h

/-- Witness for C6 at the freshly created handle state and a gravity tick. -/
theorem level_invariant_witness :
    (createGameState "own" "gid6").level
        = (createGameState "own" "gid6").lineCount / LEVEL_THRESHOLD
    ∧ ((applyOp (fun _ _ => 0) (Op.tick true)
          (createGameHandle (fun _ _ => 0) "own" "gid6")).1).state.level
        = ((applyOp (fun _ _ => 0) (Op.tick true)
          (createGameHandle (fun _ _ => 0) "own" "gid6")).1).state.lineCount
            / LEVEL_THRESHOLD :=
  level_invariant (fun _ _ => 0) "own" "gid6" (Op.tick true)
    (createGameHandle (fun _ _ => 0) "own" "gid6") rfl

/-! ### Claim C5 — top-out behaviour -/

/-- Running 1-by-1 game whose promoted next block collides at spawn. -/
def toppedStateC5 : InternalGameState :=
  { state := { createGameState "own" "gid5" with
      status := .running
      cols := 1
      rows := 1
      matrix := [[1]]
      activeBlock := none
      nextBlock := some ⟨⟨0, 0⟩, [⟨0, 0⟩], 0⟩ }
    userQueue := []
    blockFactory := ⟨[], 0⟩ }

/-- C5 counterexample: on top-out the engine transitions to `ended` but the
events published are `blockCreated` and `statusChanged`; no `stopped` event
is emitted (that string is only published by the handle's explicit `stop()`
method). -/
theorem topOut_counterexample :
    ((move (fun _ _ => 0) toppedStateC5 DOWN).1).state.status = GameStatus.ended
    ∧ (move (fun _ _ => 0) toppedStateC5 DOWN).2 = [blockCreated, statusChanged]
    ∧ ((move (fun _ _ => 0) toppedStateC5 DOWN).2).contains "stopped" = false := by
  refine ⟨rfl, rfl, by decide⟩

/-- C5 (amended): in a running game with no active block, a move promotes
`nextBlock`, draws a fresh `nextBlock`, increments `blockCount`, draws the
promoted block onto the matrix regardless, and — when the promoted block is
already colliding — transitions to `ended`, publishing `blockCreated` and
`statusChanged` (not `stopped`); and in any status other than `running`,
every move is a no-op on the state. -/
theorem topOut_spec (jss : Nat → Nat → Nat) (s : InternalGameState)
    (nb : Block) (dir : String)
    (hrun : s.state.status = .running)
    (hact : s.state.activeBlock = none)
    (hnext : s.state.nextBlock = some nb)
    (hblocked : isBlocked s.state.matrix nb = true) :
    (((move jss s dir).1).state.status = .ended
     ∧ (move jss s dir).2 = [blockCreated, statusChanged]
     ∧ ((move jss s dir).1).state.blockCount = s.state.blockCount + 1
     ∧ ((move jss s dir).1).state.activeBlock = some nb
     ∧ ((move jss s dir).1).state.nextBlock
         = some (createBlock jss s.state.cols s.blockFactory).1
     ∧ ((move jss s dir).1).state.matrix = drawBlock s.state.matrix nb
     ∧ ((move jss s dir).1).state.stepCount = s.state.stepCount + 1)
    ∧ ∀ (s' : InternalGameState) (d : String),
        s'.state.status ≠ .running → move jss s' d = (s', []) := by
  constructor
  · have hnr : ¬ s.state.status ≠ .running := by rw [hrun]; simp
    simp only [move, if_neg hnr, hact, initNextBlock, hnext, isBlockedO,
      drawBlockO, stopInternal, hblocked, if_true]
    exact ⟨trivial, trivial, trivial, trivial, trivial, trivial, trivial⟩
  · exact fun s' d => move_not_running jss s' d

/-- Witness for C5 (amended) at the concrete topped-out 1-by-1 state. -/
theorem topOut_spec_witness :
    ((move (fun _ _ => 0) toppedStateC5 DOWN).1).state.blockCount
        = toppedStateC5.state.blockCount + 1
    ∧ ((move (fun _ _ => 0) toppedStateC5 DOWN).1).state.matrix
        = drawBlock toppedStateC5.state.matrix ⟨⟨0, 0⟩, [⟨0, 0⟩], 0⟩ := by
  have h := topOut_spec (fun _ _ => 0) toppedStateC5 ⟨⟨0, 0⟩, [⟨0, 0⟩], 0⟩ DOWN
    rfl rfl rfl (by decide)
  exact ⟨h.1.2.2.1, h.1.2.2.2.2.2.1⟩

/-! ### Claim C7 — rejected lateral moves

The key fact is that erasing a block and redrawing it at the same position
equals just drawing it: both touch exactly the same cells, and the draw wins.
We prove it pointwise over cells. -/

/-- Cell value at row `i`, column `j` (0 outside the matrix). -/
def cellN (m : Matrix) (i j : Nat) : Nat := (m.getD i []).getD j 0

/-- Both `drawBlock` and `eraseBlock` are instances of this guarded
cell-writing loop (the `forEach` in the source), writing `val`. -/
def writeCells (vs : List Vector) (val : Nat) (m : Matrix) : Matrix :=
  vs.foldl (fun acc v => if 0 ≤ v.y ∧ 0 ≤ v.x then setCell acc v val else acc) m

theorem drawBlock_eq_writeCells (m : Matrix) (b : Block) :
    drawBlock m b = writeCells (toAbsVectors b) 1 m := rfl

theorem eraseBlock_eq_writeCells (m : Matrix) (b : Block) :
    eraseBlock m (some b) = writeCells (toAbsVectors b) 0 m := rfl

theorem getD_of_lt {α : Type} (l : List α) (d : α) (i : Nat) (h : i < l.length) :
    l.getD i d = l[i] := by
  simp [List.getD_eq_getElem?_getD, List.getElem?_eq_getElem h]

theorem getD_set_self_of_lt {α : Type} (l : List α) (n : Nat) (a d : α)
    (h : n < l.length) : (l.set n a).getD n d = a := by
  simp [List.getD_eq_getElem?_getD, List.getElem?_set_self h]

theorem getD_set_of_ne {α : Type} (l : List α) (i j : Nat) (a d : α)
    (h : i ≠ j) : (l.set i a).getD j d = l.getD j d := by
  simp [List.getD_eq_getElem?_getD, List.getElem?_set_ne h]

theorem setCell_length (m : Matrix) (v : Vector) (val : Nat) :
    (setCell m v val).length = m.length := List.length_set ..

theorem setCell_rowLen (m : Matrix) (v : Vector) (val : Nat) (i : Nat) :
    ((setCell m v val).getD i []).length = (m.getD i []).length := by
  unfold setCell
  by_cases hy : v.y.toNat = i
  · subst hy
    by_cases hl : v.y.toNat < m.length
    · rw [getD_set_self_of_lt _ _ _ _ hl, List.length_set]
    · rw [List.set_eq_of_length_le (Nat.le_of_not_lt hl)]
  · rw [getD_set_of_ne _ _ _ _ _ hy]

theorem cellN_setCell (m : Matrix) (v : Vector) (val : Nat) (i j : Nat) :
    cellN (setCell m v val) i j
      = if v.y.toNat = i ∧ v.x.toNat = j ∧ i < m.length
            ∧ j < (m.getD i []).length
        then val else cellN m i j := by
  unfold cellN setCell
  by_cases hy : v.y.toNat = i
  · subst hy
    by_cases hl : v.y.toNat < m.length
    · rw [getD_set_self_of_lt _ _ _ _ hl]
      by_cases hx : v.x.toNat = j
      · subst hx
        by_cases hj : v.x.toNat < (m.getD v.y.toNat []).length
        · rw [if_pos ⟨rfl, rfl, hl, hj⟩]
          exact getD_set_self_of_lt _ _ _ _ hj
        · rw [if_neg (by tauto), List.set_eq_of_length_le (Nat.le_of_not_lt hj)]
      · rw [if_neg (by tauto), getD_set_of_ne _ _ _ _ _ hx]
    · rw [if_neg (by tauto), List.set_eq_of_length_le (Nat.le_of_not_lt hl)]
  · rw [if_neg (by tauto), getD_set_of_ne _ _ _ _ _ hy]

theorem writeCells_length (vs : List Vector) (val : Nat) :
    ∀ m : Matrix, (writeCells vs val m).length = m.length := by
  induction vs with
  | nil => intro m; rfl
  | cons v vs ih =>
      intro m
      show (writeCells vs val
        (if 0 ≤ v.y ∧ 0 ≤ v.x then setCell m v val else m)).length = _
      rw [ih]
      split
      · exact setCell_length m v val
      · rfl

theorem writeCells_rowLen (vs : List Vector) (val : Nat) :
    ∀ (m : Matrix) (i : Nat),
      ((writeCells vs val m).getD i []).length = ((m.getD i []).length) := by
  induction vs with
  | nil => intro m i; rfl
  | cons v vs ih =>
      intro m i
      show ((writeCells vs val
        (if 0 ≤ v.y ∧ 0 ≤ v.x then setCell m v val else m)).getD i []).length = _
      rw [ih]
      split
      · exact setCell_rowLen m v val i
      · rfl

theorem cellN_writeCells_frame (vs : List Vector) (val : Nat) :
    ∀ (m : Matrix) (i j : Nat),
      (∀ v ∈ vs, ¬(0 ≤ v.y ∧ 0 ≤ v.x ∧ v.y.toNat = i ∧ v.x.toNat = j
        ∧ i < m.length ∧ j < (m.getD i []).length)) →
      cellN (writeCells vs val m) i j = cellN m i j := by
  induction vs with
  | nil => intro m i j _; rfl
  | cons w vs ih =>
      intro m i j h
      show cellN (writeCells vs val
        (if 0 ≤ w.y ∧ 0 ≤ w.x then setCell m w val else m)) i j = _
      by_cases hg : 0 ≤ w.y ∧ 0 ≤ w.x
      · rw [if_pos hg]
        have h' : ∀ v ∈ vs, ¬(0 ≤ v.y ∧ 0 ≤ v.x ∧ v.y.toNat = i ∧ v.x.toNat = j
            ∧ i < (setCell m w val).length
            ∧ j < ((setCell m w val).getD i []).length) := by
          intro v hv hc
          refine h v (List.mem_cons_of_mem _ hv) ?_
          obtain ⟨c1, c2, c3, c4, c5, c6⟩ := hc
          exact ⟨c1, c2, c3, c4, by rwa [setCell_length] at c5,
            by rwa [setCell_rowLen] at c6⟩
        rw [ih _ i j h', cellN_setCell]
        have hw := h w (List.mem_cons_self _ _)
        rw [if_neg (fun hc =>
          hw ⟨hg.1, hg.2, hc.1, hc.2.1, hc.2.2.1, hc.2.2.2⟩)]
      · rw [if_neg hg]
        exact ih _ i j (fun v hv => h v (List.mem_cons_of_mem _ hv))

theorem cellN_writeCells_hit (vs : List Vector) (val : Nat) :
    ∀ (m : Matrix) (i j : Nat),
      (∃ v ∈ vs, 0 ≤ v.y ∧ 0 ≤ v.x ∧ v.y.toNat = i ∧ v.x.toNat = j
        ∧ i < m.length ∧ j < (m.getD i []).length) →
      cellN (writeCells vs val m) i j = val := by
  induction vs with
  | nil => rintro m i j ⟨v, hv, _⟩; cases hv
  | cons w vs ih =>
      rintro m i j ⟨v, hv, hg1, hg2, hi, hj, hL, hR⟩
      show cellN (writeCells vs val
        (if 0 ≤ w.y ∧ 0 ≤ w.x then setCell m w val else m)) i j = val
      rcases List.mem_cons.mp hv with rfl | hmem
      · -- the head vector writes this very cell
        rw [if_pos ⟨hg1, hg2⟩]
        by_cases hrest : ∃ u ∈ vs, 0 ≤ u.y ∧ 0 ≤ u.x ∧ u.y.toNat = i
            ∧ u.x.toNat = j ∧ i < (setCell m v val).length
            ∧ j < ((setCell m v val).getD i []).length
        · exact ih _ i j hrest
        · -- no later write: the head's value survives
          have hnone : ∀ u ∈ vs, ¬(0 ≤ u.y ∧ 0 ≤ u.x ∧ u.y.toNat = i
              ∧ u.x.toNat = j ∧ i < (setCell m v val).length
              ∧ j < ((setCell m v val).getD i []).length) := by
            intro u hu hc
            exact hrest ⟨u, hu, hc⟩
          rw [cellN_writeCells_frame vs val _ i j hnone]
          rw [cellN_setCell, if_pos ⟨hi, hj, hL, hR⟩]
      · -- a later vector hits; dimensions are preserved by the head's write
        refine ih _ i j ⟨v, hmem, hg1, hg2, hi, hj, ?_, ?_⟩
        · split
          · rw [setCell_length]; exact hL
          · exact hL
        · split
          · rw [setCell_rowLen]; exact hR
          · exact hR

/-- Writing `1` over cells previously cleared to `0` by the same vector list
gives the same matrix as writing `1` directly: the erase is absorbed. -/
theorem writeCells_overwrite (vs : List Vector) (m : Matrix) :
    writeCells vs 1 (writeCells vs 0 m) = writeCells vs 1 m := by
  apply List.ext_getElem
  · rw [writeCells_length, writeCells_length, writeCells_length]
  · intro i h1 h2
    apply List.ext_getElem
    · rw [← getD_of_lt _ [] _ h1, ← getD_of_lt _ [] _ h2,
        writeCells_rowLen, writeCells_rowLen, writeCells_rowLen]
    · intro j hj1 hj2
      have hcell : cellN (writeCells vs 1 (writeCells vs 0 m)) i j
          = cellN (writeCells vs 1 m) i j := by
        by_cases hhit : ∃ v ∈ vs, 0 ≤ v.y ∧ 0 ≤ v.x ∧ v.y.toNat = i
            ∧ v.x.toNat = j ∧ i < m.length ∧ j < (m.getD i []).length
        · have hhit' : ∃ v ∈ vs, 0 ≤ v.y ∧ 0 ≤ v.x ∧ v.y.toNat = i
              ∧ v.x.toNat = j ∧ i < (writeCells vs 0 m).length
              ∧ j < ((writeCells vs 0 m).getD i []).length := by
            obtain ⟨v, hv, c1, c2, c3, c4, c5, c6⟩ := hhit
            exact ⟨v, hv, c1, c2, c3, c4, by rwa [writeCells_length],
              by rwa [writeCells_rowLen]⟩
          rw [cellN_writeCells_hit vs 1 _ i j hhit',
            cellN_writeCells_hit vs 1 m i j hhit]
        · have hno : ∀ v ∈ vs, ¬(0 ≤ v.y ∧ 0 ≤ v.x ∧ v.y.toNat = i
              ∧ v.x.toNat = j ∧ i < m.length ∧ j < (m.getD i []).length) :=
            fun v hv hc => hhit ⟨v, hv, hc⟩
          have hno' : ∀ v ∈ vs, ¬(0 ≤ v.y ∧ 0 ≤ v.x ∧ v.y.toNat = i
              ∧ v.x.toNat = j ∧ i < (writeCells vs 0 m).length
              ∧ j < ((writeCells vs 0 m).getD i []).length) := by
            intro v hv hc
            obtain ⟨c1, c2, c3, c4, c5, c6⟩ := hc
            exact hno v hv ⟨c1, c2, c3, c4, by rwa [writeCells_length] at c5,
              by rwa [writeCells_rowLen] at c6⟩
          rw [cellN_writeCells_frame vs 1 _ i j hno',
            cellN_writeCells_frame vs 1 m i j hno,
            cellN_writeCells_frame vs 0 m i j hno]
      rw [cellN, getD_of_lt _ [] _ h1, getD_of_lt _ 0 _ hj1] at hcell
      rw [cellN, getD_of_lt _ [] _ h2, getD_of_lt _ 0 _ hj2] at hcell
      exact hcell

/-- Erasing a block and drawing it back at the same position is the same as
just drawing it (same guarded cell set, and the draw wins). -/
theorem drawBlock_eraseBlock (m : Matrix) (b : Block) :
    drawBlock (eraseBlock m (some b)) b = drawBlock m b := by
  rw [drawBlock_eq_writeCells, eraseBlock_eq_writeCells, drawBlock_eq_writeCells]
  exact writeCells_overwrite _ m

/-- Running 2-by-1 game with a one-cell active block against the left wall. -/
def lateralStateC7 : InternalGameState :=
  { state := { createGameState "own" "gid7" with
      status := .running
      cols := 2
      rows := 1
      matrix := [[1, 0]]
      activeBlock := some ⟨⟨0, 0⟩, [⟨0, 0⟩], 0⟩
      nextBlock := none }
    userQueue := []
    blockFactory := ⟨[], 0⟩ }

/-- C7 counterexample: a lateral move whose shifted position is blocked does
increment `stepCount` (the source increments it on the clone before the
collision check and returns the clone), contradicting the claim that the
state is unchanged apart from the redraw. -/
theorem lateral_blocked_counterexample :
    lateralStateC7.state.status = GameStatus.running
    ∧ isBlocked (eraseBlock lateralStateC7.state.matrix
        lateralStateC7.state.activeBlock) ⟨⟨-1, 0⟩, [⟨0, 0⟩], 0⟩ = true
    ∧ ((move (fun _ _ => 0) lateralStateC7 LEFT).1).state.stepCount
        = lateralStateC7.state.stepCount + 1 := by
  refine ⟨rfl, by decide, rfl⟩

/-- C7 (amended): a blocked lateral move leaves every field of the state
unchanged — matrix included, since the erase followed by the redraw at the
unchanged position is absorbed — except `stepCount`, which is still
incremented by one (the increment happens before the collision check), and it
publishes no event. -/
theorem lateral_blocked_frame (jss : Nat → Nat → Nat) (s : InternalGameState)
    (ab : Block) (dir : String)
    (hrun : s.state.status = .running)
    (hact : s.state.activeBlock = some ab)
    (hdir : dir = LEFT ∨ dir = RIGHT)
    (hblocked : isBlocked (eraseBlock s.state.matrix (some ab))
        { ab with zero := ⟨ab.zero.x + (if dir = LEFT then -1 else 1),
                          ab.zero.y⟩ } = true) :
    move jss s dir
      = ({ s with state := { s.state with
            stepCount := s.state.stepCount + 1
            matrix := drawBlock s.state.matrix ab } }, []) := by
  have hnr : ¬ s.state.status ≠ .running := by rw [hrun]; simp
  have hnd : ¬ dir = DOWN := by
    rcases hdir with h | h <;> rw [h] <;> decide
  rw [move, if_neg hnr]
  simp only [hact]
  rw [if_neg hnd, if_pos hdir, if_pos hblocked, drawBlock_eraseBlock]

/-- Witness for C7 (amended) at the concrete wall state. -/
theorem lateral_blocked_frame_witness :
    move (fun _ _ => 0) lateralStateC7 LEFT
      = ({ lateralStateC7 with state := { lateralStateC7.state with
            stepCount := lateralStateC7.state.stepCount + 1
            matrix := drawBlock lateralStateC7.state.matrix
              ⟨⟨0, 0⟩, [⟨0, 0⟩], 0⟩ } }, []) :=
  lateral_blocked_frame (fun _ _ => 0) lateralStateC7 ⟨⟨0, 0⟩, [⟨0, 0⟩], 0⟩
    LEFT rfl rfl (Or.inl rfl) (by decide)

/-! ### Claim C2 — line clearing, scoring and matrix rebuild -/

theorem foldl_and_eq_true (p : Nat → Bool) (l : List Nat) (b : Bool) :
    l.foldl (fun acc x => acc && p x) b = (b && l.all p) := by
  induction l generalizing b with
  | nil => simp
  | cons hd tl ih =>
      simp only [List.foldl_cons, List.all_cons, ih]
      cases b <;> cases p hd <;> simp

theorem lineComplete_iff (row : List Nat) :
    lineComplete row = true ↔ ∀ c ∈ row, c ≠ emptyField := by
  unfold lineComplete
  rw [foldl_and_eq_true]
  simp [List.all_eq_true]

theorem mem_foundLinesAux :
    ∀ (m : List (List Nat)) (k x : Nat),
      x ∈ foundLinesAux k m
        ↔ ∃ i, ∃ h : i < m.length, x = k + i
            ∧ lineComplete (m.get ⟨i, h⟩) = true := by
  intro m
  induction m with
  | nil =>
      intro k x
      constructor
      · intro hx
        exact absurd hx (List.not_mem_nil x)
      · rintro ⟨i, h, _, _⟩
        exact absurd h (Nat.not_lt_zero i)
  | cons r rs ih =>
      intro k x
      unfold foundLinesAux
      by_cases hc : lineComplete r = true
      · rw [if_pos hc]
        constructor
        · intro hx
          rcases List.mem_cons.mp hx with rfl | hx'
          · exact ⟨0, by simp, by omega, by simpa using hc⟩
          · obtain ⟨i, h, hxi, hci⟩ := (ih (k + 1) x).mp hx'
            exact ⟨i + 1, by simpa using h, by omega, by simpa using hci⟩
        · rintro ⟨i, h, rfl, hci⟩
          cases i with
          | zero => exact List.mem_cons_self _ _
          | succ i =>
              refine List.mem_cons_of_mem _ ((ih (k + 1) _).mpr
                ⟨i, by simpa using h, by omega, by simpa using hci⟩)
      · rw [if_neg hc, ih (k + 1) x]
        constructor
        · rintro ⟨i, h, rfl, hci⟩
          exact ⟨i + 1, by simpa using h, by omega, by simpa using hci⟩
        · rintro ⟨i, h, hx, hci⟩
          cases i with
          | zero => exact absurd (by simpa using hci) hc
          | succ i =>
              exact ⟨i, by simpa using h, by omega, by simpa using hci⟩

theorem foundLines_contains (m : List (List Nat)) (i : Nat) (h : i < m.length) :
    (foundLines m).contains i = lineComplete (m.get ⟨i, h⟩) := by
  by_cases hc : lineComplete (m.get ⟨i, h⟩) = true
  · rw [hc]
    have hm : i ∈ foundLines m :=
      (mem_foundLinesAux m 0 i).mpr ⟨i, h, (Nat.zero_add i).symm, hc⟩
    exact List.elem_iff.mpr hm
  · rw [Bool.eq_false_iff.mpr hc, Bool.eq_false_iff]
    intro hct
    obtain ⟨i2, h2, hx, hc2⟩ :=
      (mem_foundLinesAux m 0 i).mp (List.elem_iff.mp hct)
    have he : i2 = i := by omega
    subst he
    exact hc hc2

theorem keptRowsAux_eq_filter :
    ∀ (m : List (List Nat)) (k : Nat) (fl : List Nat),
      (∀ i (h : i < m.length),
        fl.contains (k + i) = lineComplete (m.get ⟨i, h⟩)) →
      keptRowsAux fl k m = m.filter (fun r => !(lineComplete r)) := by
  intro m
  induction m with
  | nil => intro k fl _; rfl
  | cons r rs ih =>
      intro k fl h
      have h0 : fl.contains k = lineComplete r := by simpa using h 0 (by simp)
      have h1 : ∀ i (hh : i < rs.length),
          fl.contains (k + 1 + i) = lineComplete (rs.get ⟨i, hh⟩) := by
        intro i hh
        have hidx : k + 1 + i = k + (i + 1) := by omega
        rw [hidx]
        have := h (i + 1) (by simpa using hh)
        simpa using this
      unfold keptRowsAux
      rw [List.filter_cons]
      by_cases hc : lineComplete r = true
      · rw [if_pos (h0.trans hc), if_neg (by simp [hc]), ih (k + 1) fl h1]
      · have hcf : lineComplete r = false := Bool.eq_false_iff.mpr hc
        rw [if_neg (by rw [h0, hcf]; simp), if_pos (by simp [hcf]),
          ih (k + 1) fl h1]

theorem foundLinesAux_length :
    ∀ (m : List (List Nat)) (k : Nat),
      (foundLinesAux k m).length = m.countP (fun r => lineComplete r) := by
  intro m
  induction m with
  | nil => intro k; rfl
  | cons r rs ih =>
      intro k
      unfold foundLinesAux
      rw [List.countP_cons]
      by_cases hc : lineComplete r = true
      · simp [hc, ih]
      · simp [Bool.eq_false_iff.mpr hc, ih]

theorem filter_incomplete_length (m : List (List Nat)) :
    (m.filter (fun r => !(lineComplete r))).length
      = m.length - m.countP (fun r => lineComplete r) := by
  induction m with
  | nil => rfl
  | cons r rs ih =>
      have hle : rs.countP (fun r => lineComplete r) ≤ rs.length :=
        List.countP_le_length _
      rw [List.filter_cons, List.countP_cons]
      by_cases hc : lineComplete r = true
      · rw [if_neg (by simp [hc]), if_pos hc, ih]
        simp only [List.length_cons]
        omega
      · have hcf : lineComplete r = false := Bool.eq_false_iff.mpr hc
        rw [if_pos (by simp [hcf]), if_neg hc]
        simp only [List.length_cons, ih]
        omega

theorem lookupPlayer_addPointsTo :
    ∀ (players : List (String × Nat)) (cp : String) (inc pts : Nat),
      lookupPlayer players cp = some pts →
      lookupPlayer (addPointsTo players cp inc) cp = some (pts + inc) := by
  intro players
  induction players with
  | nil => intro cp inc pts h; simp [lookupPlayer] at h
  | cons q qs ih =>
      intro cp inc pts h
      by_cases hq : (q.1 == cp) = true
      · unfold lookupPlayer at h
        simp only [List.find?_cons, hq] at h
        have hpts : q.2 = pts := by simpa using h
        unfold addPointsTo lookupPlayer
        simp only [List.map_cons, if_pos hq, List.find?_cons]
        simp [hq, hpts]
      · have hqf : (q.1 == cp) = false := Bool.eq_false_iff.mpr hq
        unfold lookupPlayer at h
        simp only [List.find?_cons, hqf] at h
        unfold addPointsTo lookupPlayer
        rw [List.map_cons]
        rw [if_neg hq]
        simp only [List.find?_cons, hqf]
        exact ih cp inc pts h

/-- C2: when `k ≥ 1` rows are complete (a row is complete iff every cell is
occupied), the line-clear step publishes exactly one `linesCompleted` event,
adds `k` to `lineCount`, recomputes `level = floor(lineCount / 10)`, awards
the current player `table[k] * (level + 1)` points
(`table = {1:40, 2:100, 3:300, 4:1200, default:1500}`, embedded as
`calculatePoints`), and rebuilds the matrix as `k` fresh empty rows followed
by the surviving rows, preserving both dimensions; when `k = 0` the state is
unchanged and no event is published. -/
theorem updateLines_spec (s : InternalGameState) (w pts : Nat)
    (hrect : ∀ r ∈ s.state.matrix, r.length = w)
    (hcp : lookupPlayer s.state.players s.state.currentPlayer = some pts) :
    ((foundLines s.state.matrix).length = 0 → updateLines s = (s, []))
    ∧ ((foundLines s.state.matrix).length ≠ 0 →
        (updateLines s).2 = [linesCompleted]
        ∧ ((updateLines s).1).state.lineCount
            = s.state.lineCount + (foundLines s.state.matrix).length
        ∧ ((updateLines s).1).state.level
            = (s.state.lineCount + (foundLines s.state.matrix).length)
                / LEVEL_THRESHOLD
        ∧ lookupPlayer ((updateLines s).1).state.players s.state.currentPlayer
            = some (pts + calculatePoints (foundLines s.state.matrix).length
                ((s.state.lineCount + (foundLines s.state.matrix).length)
                  / LEVEL_THRESHOLD))
        ∧ ((updateLines s).1).state.matrix
            = List.replicate (foundLines s.state.matrix).length
                (List.replicate w emptyField)
              ++ s.state.matrix.filter (fun r => !(lineComplete r))
        ∧ (((updateLines s).1).state.matrix).length = s.state.matrix.length
        ∧ ∀ r ∈ ((updateLines s).1).state.matrix, r.length = w)
    ∧ (∀ row : List Nat, lineComplete row = true ↔ ∀ c ∈ row, c ≠ emptyField) := by
  refine ⟨?_, ?_, lineComplete_iff⟩
  · intro hk
    rw [updateLines]
    dsimp only
    rw [if_pos hk]
  · intro hk
    have hm_ne : s.state.matrix ≠ [] := by
      intro hnil
      apply hk
      rw [foundLines, hnil]
      rfl
    have hhead : (s.state.matrix.headD []).length = w := by
      cases hm : s.state.matrix with
      | nil => exact absurd hm hm_ne
      | cons r rs =>
          have hmem : r ∈ s.state.matrix := by
            rw [hm]
            exact List.mem_cons_self _ _
          exact hrect r hmem
    have hkept : keptRowsAux (foundLines s.state.matrix) 0 s.state.matrix
        = s.state.matrix.filter (fun r => !(lineComplete r)) := by
      refine keptRowsAux_eq_filter _ 0 _ (fun i h => ?_)
      rw [Nat.zero_add]
      exact foundLines_contains s.state.matrix i h
    have hdrop : dropLinesFromMatrix s.state.matrix (foundLines s.state.matrix)
        = List.replicate (foundLines s.state.matrix).length
            (List.replicate w emptyField)
          ++ s.state.matrix.filter (fun r => !(lineComplete r)) := by
      rw [dropLinesFromMatrix, hhead, hkept]
      rfl
    have hcount : (foundLines s.state.matrix).length
        = s.state.matrix.countP (fun r => lineComplete r) :=
      foundLinesAux_length s.state.matrix 0
    have hcle : s.state.matrix.countP (fun r => lineComplete r)
        ≤ s.state.matrix.length := List.countP_le_length _
    rw [updateLines]
    dsimp only
    rw [if_neg hk]
    refine ⟨rfl, rfl, rfl, ?_, ?_, ?_, ?_⟩
    · exact lookupPlayer_addPointsTo s.state.players s.state.currentPlayer
        _ pts hcp
    · exact hdrop
    · show (dropLinesFromMatrix s.state.matrix (foundLines s.state.matrix)).length
        = s.state.matrix.length
      rw [hdrop, List.length_append, List.length_replicate,
        filter_incomplete_length, hcount]
      omega
    · show ∀ r ∈ dropLinesFromMatrix s.state.matrix (foundLines s.state.matrix),
        r.length = w
      rw [hdrop]
      intro r hr
      rcases List.mem_append.mp hr with hr | hr
      · rw [List.eq_of_mem_replicate hr]
        exact List.length_replicate _ _
      · exact hrect r (List.mem_of_mem_filter hr)

/-- Running 2-by-2 game whose bottom-up scan finds one complete row, with one
registered player about to cross the level threshold. -/
def lineStateC2 : InternalGameState :=
  { state := { createGameState "own" "gid2" with
      status := .running
      cols := 2
      rows := 2
      matrix := [[1, 1], [0, 1]]
      players := [("p", 5)]
      currentPlayer := "p"
      lineCount := 9 }
    userQueue := []
    blockFactory := ⟨[], 0⟩ }

/-- Witness for C2: one complete row at `lineCount = 9` pushes the level to
`1` and awards `40 * 2 = 80` points. -/
theorem updateLines_spec_witness :
    (updateLines lineStateC2).2 = [linesCompleted]
    ∧ ((updateLines lineStateC2).1).state.lineCount = 10
    ∧ ((updateLines lineStateC2).1).state.level = 1
    ∧ lookupPlayer ((updateLines lineStateC2).1).state.players "p" = some 85
    ∧ ((updateLines lineStateC2).1).state.matrix = [[0, 0], [0, 1]] := by
  have h := updateLines_spec lineStateC2 2 5 (by decide) rfl
  have h2 := h.2.1 (by decide)
  exact ⟨h2.1, h2.2.1, h2.2.2.1, h2.2.2.2.1, h2.2.2.2.2.1⟩

/-! ### Claim C9 — the command router (`index.ts`)

Wire messages are embedded as `List Char`.  `disassembleMessage` splits on
the JS regex `/\@(.+)/`: the first `@` that is followed by at least one
character matched by `.` (which excludes the line terminators `\n`, `\r`)
splits the message; the captured `data` is the run of non-terminator
characters after that `@`.  The command prefix before the `@` must split on
`:` into at least two parts. -/

/-- Line terminators, which `.` in a JS regex does not match. -/
def isLineTerm (c : Char) : Bool := (c == '\n') || (c == '\r')

/-- Search of `/\@(.+)/`: the text before the first viable `@` and the whole
tail after it (`none` when the regex does not match). -/
def findAtSplit : List Char → Option (List Char × List Char)
  | [] => none
  | c :: cs =>
    if c = '@' ∧ cs.takeWhile (fun d => !isLineTerm d) ≠ [] then some ([], cs)
    else (findAtSplit cs).map (fun p => (c :: p.1, p.2))

/-- Splitting on every occurrence of a separator (JS `String.split(':')`). -/
def splitAllOn (sep : Char) : List Char → List (List Char)
  | [] => [[]]
  | c :: cs =>
    if c = sep then [] :: splitAllOn sep cs
    else
      match splitAllOn sep cs with
      | [] => [[c]]
      | p :: rest => (c :: p) :: rest

/-- Decoded frame `DisassembledMessage {command, id, data}` from `index.ts`. -/
structure DisassembledMessage where
  command : List Char
  id : List Char
  data : List Char
deriving DecidableEq, Repr

/-- Function `disassembleMessage` from `index.ts`; the `error` branches are
the two `throw Error(...)` calls. -/
def disassembleMessage (msg : List Char) :
    Except (List Char) DisassembledMessage :=
  match findAtSplit msg with
  | none => .error "Invalid message format".data
  | some (before, rest) =>
    match splitAllOn ':' before with
    | cmd :: cid :: _ =>
        .ok ⟨cmd, cid, rest.takeWhile (fun d => !isLineTerm d)⟩
    | _ => .error "Invalid message command prefix".data

/-- Names of the `switch (command)` cases in `ws.onmessage`. -/
def knownCommands : List (List Char) :=
  ["create_game", "move_left", "move_right", "move_down", "rotate",
   "start_game", "enter_game", "cancel_game", "leave_game", "change_config",
   "send_state", "send_games", "signup", "load_user",
   "send_participants"].map String.data

/-- One `respond(ws, commandId, status, data, errors)` call: the reply frame
`response_<commandId>@{status, data, errors}` in structured form. -/
structure WsResponse where
  commandId : List Char
  status : String
  errors : List (List Char)
deriving DecidableEq, Repr

/-- Nil correlation id `'00000000-0000-0000-0000-000000000000'`. -/
def emptyId : List Char := "00000000-0000-0000-0000-000000000000".data

/-- Handler `ws.onmessage` from `index.ts`, with the bodies of the fifteen
recognized commands abstracted as `dispatch` over an abstract server state
`σ` (games, sockets, players).  The result is the new server state, the
responses sent on this socket, and whether the connection stays open:
a parse failure responds and closes the socket (note the source's double
`response_` prefix in that path), an unrecognized command responds with the
`command ... not found` error and leaves the connection open. -/
def wsOnMessage {σ : Type}
    (dispatch : σ → List Char → List Char → List Char →
      σ × List WsResponse × Bool)
    (st : σ) (msg : List Char) : σ × List WsResponse × Bool :=
  match disassembleMessage msg with
  | .error e => (st, [⟨"response_".data ++ emptyId, "error", [e]⟩], false)
  | .ok d =>
    if knownCommands.contains d.command then dispatch st d.command d.id d.data
    else
      (st,
       [⟨d.id, "error",
         ["command ".data ++ d.command ++ " for command id ".data ++ d.id
           ++ " not found".data]⟩],
       true)

/-- C9: a structurally valid message (an `@` frame with a colon-separated
`command:id` prefix) whose command is not recognized produces exactly one
error response, naming both the command and the command id, performs no
mutation of the server state — whatever the recognized commands would do —
and leaves the connection open. -/
theorem unknownCommand_spec {σ : Type}
    (dispatch : σ → List Char → List Char → List Char →
      σ × List WsResponse × Bool)
    (st : σ) (msg cmd cid dat : List Char)
    (hparse : disassembleMessage msg = .ok ⟨cmd, cid, dat⟩)
    (hunk : knownCommands.contains cmd = false) :
    wsOnMessage dispatch st msg
      = (st,
         [⟨cid, "error",
           ["command ".data ++ cmd ++ " for command id ".data ++ cid
             ++ " not found".data]⟩],
         true) := by
  have hn : ¬ (knownCommands.contains cmd = true) := by
    rw [hunk]
    simp
  rw [wsOnMessage, hparse]
  dsimp only
  rw [if_neg hn]

/-- Witness for C9 at the concrete frame `foo:123@42`. -/
theorem unknownCommand_spec_witness :
    wsOnMessage (fun (st : Unit) _ _ _ => (st, [], true)) () "foo:123@42".data
      = ((),
         [⟨"123".data, "error",
           ["command ".data ++ "foo".data ++ " for command id ".data
             ++ "123".data ++ " not found".data]⟩],
         true) :=
  unknownCommand_spec (fun (st : Unit) _ _ _ => (st, [], true)) ()
    "foo:123@42".data "foo".data "123".data "42".data rfl rfl

end Klops
